import Mathlib

/-!
# Verification of the Prisma calculator tab store (`src/app.tsx`)

A shallow embedding of the calculator logic of the Prisma desktop
calculator: numeric parsing and display formatting, the arbitrage and
funding derived-value formulas, the tab collection operations
(add / remove / rename / update / clear), the load-time merge of the
remote and local settings snapshots, the funding-log and history caps,
and the device-local storage access paths.

Numbers parsed from the text inputs are modelled as exact rationals
(`ℚ`); display rounding (`Number.prototype.toFixed`) is modelled as
decimal rounding half away from zero on the rational value.
-/

namespace PrismaCalc

attribute [local semireducible] Rat.mul Rat.add Rat.sub Rat.inv Rat.ofScientific

/-! ## Numeric parsing and formatting -/

/-- Numeric value of a list of decimal digit characters (as consumed left
to right, so leading zeros are harmless). -/
def digitsToNat (l : List Char) : Nat :=
  l.foldl (fun a c => 10 * a + (c.toNat - 48)) 0

/-- `10 ^ e` as a rational, for an integer exponent. -/
def qpow10 (e : ℤ) : ℚ :=
  if 0 ≤ e then ((10 ^ e.toNat : ℕ) : ℚ) else 1 / ((10 ^ (-e).toNat : ℕ) : ℚ)

/-- Model of JavaScript `parseFloat` on exact rationals: skip leading
spaces, optional sign, integer digits, optional fractional digits,
optional exponent part; `none` models `NaN` (no digits consumed). -/
def parseFloatQ (s : String) : Option ℚ :=
  let l := s.toList.dropWhile (fun c => c = ' ')
  let signAndRest : ℚ × List Char :=
    match l with
    | '-' :: r => (-1, r)
    | '+' :: r => (1, r)
    | _ => (1, l)
  let sgn := signAndRest.1
  let l1 := signAndRest.2
  let ip := l1.takeWhile Char.isDigit
  let l2 := l1.dropWhile Char.isDigit
  let fracAndRest : List Char × List Char :=
    match l2 with
    | '.' :: r => (r.takeWhile Char.isDigit, r.dropWhile Char.isDigit)
    | _ => ([], l2)
  let fp := fracAndRest.1
  let l3 := fracAndRest.2
  if ip.isEmpty ∧ fp.isEmpty then none
  else
    let mant : ℚ :=
      sgn * ((digitsToNat ip : ℚ) + (digitsToNat fp : ℚ) / ((10 ^ fp.length : ℕ) : ℚ))
    let expo : ℤ :=
      match l3 with
      | 'e' :: r =>
        let (eneg, r1) :=
          match r with
          | '-' :: t => (true, t)
          | '+' :: t => (false, t)
          | _ => (false, r)
        let ed := r1.takeWhile Char.isDigit
        if ed.isEmpty then 0 else if eneg then -(digitsToNat ed : ℤ) else (digitsToNat ed : ℤ)
      | 'E' :: r =>
        let (eneg, r1) :=
          match r with
          | '-' :: t => (true, t)
          | '+' :: t => (false, t)
          | _ => (false, r)
        let ed := r1.takeWhile Char.isDigit
        if ed.isEmpty then 0 else if eneg then -(digitsToNat ed : ℤ) else (digitsToNat ed : ℤ)
      | _ => 0
    some (mant * qpow10 expo)

/-- Decimal string of a natural number left-padded with zeros to `n`
characters (for the fractional part of a fixed-point rendering). -/
def padLeftZeros (k n : Nat) : String :=
  let s := toString k
  String.mk (List.replicate (n - s.length) '0') ++ s

/-- Model of JavaScript `Number.prototype.toFixed(n)`: round the value
to `n` decimal places (half away from zero) and render it with exactly
`n` fractional digits. -/
def toFixedQ (q : ℚ) (n : Nat) : String :=
  let scaled : ℚ := q * ((10 ^ n : ℕ) : ℚ)
  let m : ℤ := if 0 ≤ scaled then (scaled + 1/2).floor else -((-scaled + 1/2).floor)
  let a := m.natAbs
  let ipart := a / 10 ^ n
  let fpart := a % 10 ^ n
  (if m < 0 then "-" else "") ++ toString ipart ++
    (if n = 0 then "" else "." ++ padLeftZeros fpart n)

/-! ## Arbitrage derived values (`CalculatorInstance` in `src/app.tsx`) -/

/-- `calculateDifference` from `src/app.tsx`: percentage difference of two
numeric strings, `"0.00"` when either fails to parse or the denominator
is zero. -/
def calculateDifference (val1 val2 : String) : String :=
  match parseFloatQ val1, parseFloatQ val2 with
  | some num1, some num2 =>
    if num2 ≠ 0 then toFixedQ ((num1 - num2) / num2 * 100) 2 else "0.00"
  | _, _ => "0.00"

/-- A purchase entry of an arbitrage instance (`Purchase` in `src/app.tsx`). -/
structure Purchase where
  id : Nat
  value : String
deriving DecidableEq, Repr

/-- `totalPurchases` from `src/app.tsx`:
`purchases.reduce((sum, p) => sum + parseFloat(p.value || '0'), 0)`.
An empty `value` contributes `0` (the `|| '0'` fallback); a non-empty
value that fails to parse poisons the whole sum (`NaN`), modelled as
`none`. -/
def totalPurchasesQ (ps : List Purchase) : Option ℚ :=
  ps.foldl
    (fun acc p =>
      match acc, parseFloatQ (if p.value = "" then "0" else p.value) with
      | some a, some v => some (a + v)
      | _, _ => none)
    (some 0)

/-- `averagePrice` from `src/app.tsx`: `totalPurchases / coins` to four
decimal places when `coins` parses to a value that is not zero and the
purchase total is positive, else `"0.0000"`.  A `NaN` purchase total
(`none`) fails the `totalPurchases > 0` test. -/
def averagePrice (totalCoins : String) (ps : List Purchase) : String :=
  match parseFloatQ totalCoins, totalPurchasesQ ps with
  | some coins, some total =>
    if coins ≠ 0 ∧ 0 < total then toFixedQ (total / coins) 4 else "0.0000"
  | _, _ => "0.0000"

/-! ## Funding calculations (`FundingRateInstance` in `src/app.tsx`) -/

/-- The record returned by the `calculations` memo of
`FundingRateInstance`. -/
structure FundingCalcs where
  netProfitRate : ℚ
  netProfitUSD : ℚ
  dailyProfitUSD : ℚ
  monthlyProfitUSD : ℚ
  annualProfitUSD : ℚ
  margin : ℚ
  apy : ℚ
deriving DecidableEq, Repr

/-- The `calculations` memo of `FundingRateInstance`, on the already
parsed numeric inputs (`posSize`, short rate `rA` and long rate `rB` as
fractions, leverage `lev`, funding interval in hours). -/
def fundingCalculations (posSize rA rB lev interval : ℚ) : FundingCalcs :=
  if posSize = 0 then ⟨0, 0, 0, 0, 0, 0, 0⟩
  else
    let netProfitRate := rA - rB
    let netProfitUSD := posSize * netProfitRate
    let periodsPerDay := if 0 < interval then 24 / interval else 0
    let dailyProfitUSD := netProfitUSD * periodsPerDay
    let monthlyProfitUSD := dailyProfitUSD * 30
    let annualProfitUSD := dailyProfitUSD * 365
    let margin := if 0 < lev ∧ 0 < posSize then posSize / lev else 0
    let apy := if 0 < margin then annualProfitUSD / margin * 100 else 0
    ⟨netProfitRate, netProfitUSD, dailyProfitUSD, monthlyProfitUSD, annualProfitUSD, margin, apy⟩

/-- The parsing layer in front of `fundingCalculations`:
`parseFloat(positionSize) || 0`, `parseFloat(shortExchangeFR) / 100 || 0`,
`parseFloat(longExchangeFR) / 100 || 0`, `parseFloat(leverage) || 1`
(note: a leverage of `0` falls back to `1`), `parseFloat(fundingInterval) || 0`. -/
def fundingParsed (positionSize leverage fundingInterval shortFR longFR : String) : FundingCalcs :=
  let posSize := (parseFloatQ positionSize).getD 0
  let rA := ((parseFloatQ shortFR).map (· / 100)).getD 0
  let rB := ((parseFloatQ longFR).map (· / 100)).getD 0
  let lev :=
    match parseFloatQ leverage with
    | some v => if v = 0 then 1 else v
    | none => 1
  let interval := (parseFloatQ fundingInterval).getD 0
  fundingCalculations posSize rA rB lev interval

/-! ## Data model: calculator instances -/

/-- The discriminant of the `CalculatorState` tagged union. -/
inductive CalcType where
  | arbitrage
  | funding
deriving DecidableEq, Repr

instance : BEq CalcType := ⟨fun a b => decide (a = b)⟩

/-- A funding-log entry (`FundingLogEntry` in `src/app.tsx`). -/
structure FundingLogEntry where
  id : Nat
  timestamp : String
  profit : ℚ
  rate : ℚ
deriving DecidableEq, Repr

/-- A calculator instance.  JavaScript keeps the two variants as loose
objects; here they are flattened into one record discriminated by
`type`, with the fields of the other variant left at their neutral
values. -/
structure Calc where
  id : Nat
  type : CalcType
  name : String
  openingExch1 : String := ""
  openingExch2 : String := ""
  closingExch1 : String := ""
  closingExch2 : String := ""
  totalCoins : String := ""
  purchases : List Purchase := []
  showAverage : Bool := false
  positionSize : String := ""
  leverage : String := ""
  fundingInterval : String := ""
  shortExchangeName : String := ""
  shortExchangeFR : String := ""
  longExchangeName : String := ""
  longExchangeFR : String := ""
  log : List FundingLogEntry := []
deriving DecidableEq, Repr

/-- `getNewCalculator` from `src/app.tsx` (the fresh default arbitrage
instance); `now` stands for the `Date.now()` used as the id of the
single empty purchase entry. -/
def getNewCalculator (id count now : Nat) : Calc :=
  { id := id
    type := .arbitrage
    name := "C " ++ toString count
    openingExch1 := ""
    openingExch2 := ""
    closingExch1 := ""
    closingExch2 := ""
    totalCoins := ""
    purchases := [{ id := now, value := "" }]
    showAverage := false }

/-- `getNewFundingCalculator` from `src/app.tsx` (the fresh default
funding instance). -/
def getNewFundingCalculator (id count : Nat) : Calc :=
  { id := id
    type := .funding
    name := "FR " ++ toString count
    positionSize := ""
    leverage := "10"
    fundingInterval := "8"
    shortExchangeName := "Ex A (Short)"
    shortExchangeFR := ""
    longExchangeName := "Ex B (Long)"
    longExchangeFR := ""
    log := [] }

/-! ## Tab name numbering (`handleAddArbitrageTab` / `handleAddFundingTab`) -/

/-- Strip a fixed character sequence from the front of a list;
`none` when the list does not start with it. -/
def stripLead : List Char → List Char → Option (List Char)
  | [], l => some l
  | p :: ps, c :: cs => if p = c then stripLead ps cs else none
  | _ :: _, [] => none

/-- The trailing integer of a name matching `^{lead} (\d+)$` (the
regexes `^C (\d+)$` and `^FR (\d+)$` of `src/app.tsx`), `none` when the
name does not match. -/
def trailingNum (lead : List Char) (name : String) : Option Nat :=
  match stripLead lead name.toList with
  | some ds => if ds ≠ [] ∧ ds.all Char.isDigit then some (digitsToNat ds) else none
  | none => none

/-- The name pattern of each variant: `"C {n}"` for arbitrage,
`"FR {n}"` for funding. -/
def tabMatch (t : CalcType) (name : String) : Option Nat :=
  match t with
  | .arbitrage => trailingNum ['C', ' '] name
  | .funding => trailingNum ['F', 'R', ' '] name

/-- The extracted number list of `handleAddArbitrageTab` /
`handleAddFundingTab`: each same-variant instance contributes its
trailing pattern integer, or `0` when its name does not match
(`match ? parseInt(match[1], 10) : 0`). -/
def extractNums (t : CalcType) (calcs : List Calc) : List Nat :=
  (calcs.filter (fun c => c.type == t)).map (fun c => (tabMatch t c.name).getD 0)

/-- The scan loop of `handleAddArbitrageTab` / `handleAddFundingTab`:
walk the sorted number list, incrementing the candidate while it is
matched, stopping at the first mismatch. -/
def nextCountWalk : List Nat → Nat → Nat
  | [], n => n
  | x :: xs, n => if x = n then nextCountWalk xs (n + 1) else n

/-- The number assigned to a freshly added tab of variant `t`:
extract, sort ascending, scan from 1. -/
def nextTabNumber (t : CalcType) (calcs : List Calc) : Nat :=
  nextCountWalk (List.insertionSort (· ≤ ·) (extractNums t calcs)) 1

/-- `handleAddArbitrageTab` from `src/app.tsx`: append a fresh arbitrage
instance named with `nextTabNumber` and activate it (`newId` and `now`
stand for the two `Date.now()` reads). -/
def handleAddArbitrageTab (calcs : List Calc) (newId now : Nat) : List Calc × Nat :=
  (calcs ++ [getNewCalculator newId (nextTabNumber .arbitrage calcs) now], newId)

/-- `handleAddFundingTab` from `src/app.tsx`. -/
def handleAddFundingTab (calcs : List Calc) (newId : Nat) : List Calc × Nat :=
  (calcs ++ [getNewFundingCalculator newId (nextTabNumber .funding calcs)], newId)

/-! ## Tab removal, rename, update, clear -/

/-- `handleRemoveTab` from `src/app.tsx`.  Returns the new collection and
the new active id.  `freshId`/`now` stand for `Date.now()` in the
last-tab branch.  The fallback element of `getD` is never reached when
the removed id is a member of a collection of at least two instances. -/
def handleRemoveTab (calcs : List Calc) (activeTabId idToRemove freshId now : Nat) :
    List Calc × Nat :=
  let currentTabIndex : Int :=
    match calcs.findIdx? (fun c => c.id == idToRemove) with
    | some i => (i : Int)
    | none => -1
  let remaining := calcs.filter (fun c => !(c.id == idToRemove))
  if remaining.isEmpty then
    let newCalc := getNewCalculator freshId 1 now
    ([newCalc], newCalc.id)
  else if idToRemove = activeTabId then
    let newActiveIndex := (max 0 (currentTabIndex - 1)).toNat
    (remaining, (remaining.getD newActiveIndex (getNewCalculator 0 0 now)).id)
  else
    (remaining, activeTabId)

/-- `handleRenameTab` from `src/app.tsx`. -/
def handleRenameTab (calcs : List Calc) (id : Nat) (newName : String) : List Calc :=
  calcs.map (fun c => if c.id = id then { c with name := newName } else c)

/-- A partial-state patch, as passed to `onUpdate` by the instance
components (`{ openingExch1: v }`, `{ log: ... }`, ...).  The call sites
never patch `id`, `type` or `name`. -/
structure Patch where
  openingExch1 : Option String := none
  openingExch2 : Option String := none
  closingExch1 : Option String := none
  closingExch2 : Option String := none
  totalCoins : Option String := none
  purchases : Option (List Purchase) := none
  showAverage : Option Bool := none
  positionSize : Option String := none
  leverage : Option String := none
  fundingInterval : Option String := none
  shortExchangeName : Option String := none
  shortExchangeFR : Option String := none
  longExchangeName : Option String := none
  longExchangeFR : Option String := none
  log : Option (List FundingLogEntry) := none

/-- The `{...calc, ...partialState}` spread of `handleUpdateInstance`. -/
def applyPatch (c : Calc) (p : Patch) : Calc :=
  { c with
    openingExch1 := p.openingExch1.getD c.openingExch1
    openingExch2 := p.openingExch2.getD c.openingExch2
    closingExch1 := p.closingExch1.getD c.closingExch1
    closingExch2 := p.closingExch2.getD c.closingExch2
    totalCoins := p.totalCoins.getD c.totalCoins
    purchases := p.purchases.getD c.purchases
    showAverage := p.showAverage.getD c.showAverage
    positionSize := p.positionSize.getD c.positionSize
    leverage := p.leverage.getD c.leverage
    fundingInterval := p.fundingInterval.getD c.fundingInterval
    shortExchangeName := p.shortExchangeName.getD c.shortExchangeName
    shortExchangeFR := p.shortExchangeFR.getD c.shortExchangeFR
    longExchangeName := p.longExchangeName.getD c.longExchangeName
    longExchangeFR := p.longExchangeFR.getD c.longExchangeFR
    log := p.log.getD c.log }

/-- `handleUpdateInstance` from `src/app.tsx`: merge a partial patch into
the active instance only. -/
def handleUpdateInstance (calcs : List Calc) (activeTabId : Nat) (p : Patch) : List Calc :=
  calcs.map (fun c => if c.id = activeTabId then applyPatch c p else c)

/-- `handleClearActiveTabFields` from `src/app.tsx`: reset the content
fields of the active instance to variant-specific defaults. -/
def handleClearActiveTabFields (calcs : List Calc) (activeTabId now : Nat) : List Calc :=
  calcs.map (fun c =>
    if c.id = activeTabId then
      if c.type = .funding then
        { c with positionSize := "", shortExchangeFR := "", longExchangeFR := "", log := [] }
      else
        { c with
          openingExch1 := "", openingExch2 := "", closingExch1 := "", closingExch2 := "",
          totalCoins := "", purchases := [{ id := now, value := "" }] }
    else c)

/-! ## Persistence: snapshots, merge-on-load, migration backfill -/

/-- A persisted calculator instance: a JSON object whose presence of
fields is not guaranteed (schema evolution), hence every field other
than the id is optional.  `type` is `none` when the persisted object
carries no (or no recognised) `type` field. -/
structure PCalc where
  id : Nat
  type : Option CalcType := none
  name : Option String := none
  openingExch1 : Option String := none
  openingExch2 : Option String := none
  closingExch1 : Option String := none
  closingExch2 : Option String := none
  totalCoins : Option String := none
  purchases : Option (List Purchase) := none
  showAverage : Option Bool := none
  positionSize : Option String := none
  leverage : Option String := none
  fundingInterval : Option String := none
  shortExchangeName : Option String := none
  shortExchangeFR : Option String := none
  longExchangeName : Option String := none
  longExchangeFR : Option String := none
  log : Option (List FundingLogEntry) := none
deriving DecidableEq, Repr

/-- The object spread `{...cloudCalc, ...localMatch}` on persisted
instances: a field present on the local instance wins, otherwise the
cloud field is kept. -/
def PCalc.spread (cloud localC : PCalc) : PCalc where
  id := localC.id
  type := localC.type.orElse fun _ => cloud.type
  name := localC.name.orElse fun _ => cloud.name
  openingExch1 := localC.openingExch1.orElse fun _ => cloud.openingExch1
  openingExch2 := localC.openingExch2.orElse fun _ => cloud.openingExch2
  closingExch1 := localC.closingExch1.orElse fun _ => cloud.closingExch1
  closingExch2 := localC.closingExch2.orElse fun _ => cloud.closingExch2
  totalCoins := localC.totalCoins.orElse fun _ => cloud.totalCoins
  purchases := localC.purchases.orElse fun _ => cloud.purchases
  showAverage := localC.showAverage.orElse fun _ => cloud.showAverage
  positionSize := localC.positionSize.orElse fun _ => cloud.positionSize
  leverage := localC.leverage.orElse fun _ => cloud.leverage
  fundingInterval := localC.fundingInterval.orElse fun _ => cloud.fundingInterval
  shortExchangeName := localC.shortExchangeName.orElse fun _ => cloud.shortExchangeName
  shortExchangeFR := localC.shortExchangeFR.orElse fun _ => cloud.shortExchangeFR
  longExchangeName := localC.longExchangeName.orElse fun _ => cloud.longExchangeName
  longExchangeFR := localC.longExchangeFR.orElse fun _ => cloud.longExchangeFR
  log := localC.log.orElse fun _ => cloud.log

/-- One step of the merge-on-load loop: overlay the local instance with
the same id on a cloud instance, if any
(`localMatch ? {...cloudCalc, ...localMatch} : cloudCalc`). -/
def mergeOne (localCalcs : List PCalc) (cloudCalc : PCalc) : PCalc :=
  match localCalcs.find? (fun lc => lc.id == cloudCalc.id) with
  | some localMatch => cloudCalc.spread localMatch
  | none => cloudCalc

/-- The merge-on-load of `loadSettings` in `src/app.tsx`, lines
1100–1105: iterate `mergeOne` over the cloud calculator list. -/
def mergeCalculators (cloudCalcs localCalcs : List PCalc) : List PCalc :=
  cloudCalcs.map (mergeOne localCalcs)

/-- The default-field template used by the migration step: the funding
default for persisted type `'funding'`, the arbitrage default otherwise
(`calc.type === 'funding' ? getNewFundingCalculator(0, 0) :
getNewCalculator(0, 0)`). -/
def defaultTemplate (now : Nat) (t : Option CalcType) : Calc :=
  if t = some .funding then getNewFundingCalculator 0 0 else getNewCalculator 0 0 now

/-- The migration/backfill step of `loadSettings`
(`{...defaultState, ...calc, type: calc.type || 'arbitrage', log: calc.log || []}`):
fields present in the persisted instance win, fields missing from it
receive the variant template's default value; `type` falls back to
`'arbitrage'` and `log` to `[]`. -/
def migrateCalc (now : Nat) (c : PCalc) : Calc :=
  let d := defaultTemplate now c.type
  { id := c.id
    type := c.type.getD .arbitrage
    name := c.name.getD d.name
    openingExch1 := c.openingExch1.getD d.openingExch1
    openingExch2 := c.openingExch2.getD d.openingExch2
    closingExch1 := c.closingExch1.getD d.closingExch1
    closingExch2 := c.closingExch2.getD d.closingExch2
    totalCoins := c.totalCoins.getD d.totalCoins
    purchases := c.purchases.getD d.purchases
    showAverage := c.showAverage.getD d.showAverage
    positionSize := c.positionSize.getD d.positionSize
    leverage := c.leverage.getD d.leverage
    fundingInterval := c.fundingInterval.getD d.fundingInterval
    shortExchangeName := c.shortExchangeName.getD d.shortExchangeName
    shortExchangeFR := c.shortExchangeFR.getD d.shortExchangeFR
    longExchangeName := c.longExchangeName.getD d.longExchangeName
    longExchangeFR := c.longExchangeFR.getD d.longExchangeFR
    log := c.log.getD [] }

/-- A persisted settings snapshot, restricted to the fields the
calculator collection logic reads (`calculators`, `activeTabId`);
`activeTabId = some 0` models a persisted falsy id, which the load
treats like an absent one. -/
structure PSettings where
  calculators : List PCalc
  activeTabId : Option Nat := none
deriving DecidableEq, Repr

/-- `baseSettings.activeTabId || migratedCalculators[0].id`: the
persisted active id unless it is absent or falsy (`0`), in which case
the first migrated instance's id. -/
def loadActive (act? : Option Nat) (fallbackId : Nat) : Nat :=
  match act? with
  | some a => if a = 0 then fallbackId else a
  | none => fallbackId

/-- The calculator-collection part of `loadSettings` in `src/app.tsx`:
pick `cloudSettings || localSettings` as base, merge the two calculator
lists when both snapshots exist, and when the resulting list is
non-empty, migrate every instance and activate
`baseSettings.activeTabId || migrated[0].id`; otherwise keep the
in-memory default state. -/
def loadSettings (defaultState : List Calc × Nat) (cloud localS : Option PSettings)
    (now : Nat) : List Calc × Nat :=
  match cloud.orElse fun _ => localS with
  | none => defaultState
  | some base =>
    let baseCalcs :=
      match cloud, localS with
      | some cs, some ls => mergeCalculators cs.calculators ls.calculators
      | _, _ => base.calculators
    match baseCalcs.map (migrateCalc now) with
    | [] => defaultState
    | m :: ms => (m :: ms, loadActive base.activeTabId m.id)

/-! ## Funding log and history insertion -/

/-- `handleLogPeriod` from `src/app.tsx`: skip when the period profit is
zero, otherwise prepend a new entry and keep the first 100
(`[newLogEntry, ...log].slice(0, 100)`). -/
def handleLogPeriod (netProfitUSD netProfitRate : ℚ) (nowId : Nat) (ts : String)
    (log : List FundingLogEntry) : List FundingLogEntry :=
  if netProfitUSD = 0 then log
  else ({ id := nowId, timestamp := ts, profit := netProfitUSD, rate := netProfitRate } :: log).take 100

/-- A history entry (`inputs` kept as an opaque serialized blob). -/
structure HistoryEntry where
  id : Nat
  timestamp : String
  type : String
  inputs : String
  result : String
  tabName : String
deriving DecidableEq, Repr

/-- `addToHistory` from `src/app.tsx`: skip zero-sentinel or empty
results, otherwise prepend and keep the first 50
(`[newItem, ...prev].slice(0, 50)`). -/
def addToHistory (type inputs result tabName : String) (nowId : Nat) (ts : String)
    (hist : List HistoryEntry) : List HistoryEntry :=
  if result = "" ∨ result = "0.00" ∨ result = "0.0000" then hist
  else ({ id := nowId, timestamp := ts, type := type, inputs := inputs,
          result := result, tabName := tabName } :: hist).take 50

/-! ## Device-local storage access paths -/

/-- The possible outcomes of a device-local storage read followed by
`JSON.parse`: the read itself throws, the key is absent (`null`), the
stored text is corrupt (`JSON.parse` throws), or a value is decoded. -/
inductive ReadResult (α : Type) where
  | throwErr
  | absent
  | corrupt
  | ok (a : α)
deriving DecidableEq, Repr

/-- The local settings read of `loadSettings` (lines 1084–1090 of
`src/app.tsx`): `getItem` + `JSON.parse` wrapped in `try/catch`, so
every failure leaves `localSettings = null`. -/
def loadLocalSnapshot : ReadResult PSettings → Option PSettings
  | .ok s => some s
  | _ => none

/-- The history read of the same effect (lines 1134–1135):
`const savedHistory = localStorage.getItem('prismaCryptoHistory');
if (savedHistory) setHistory(JSON.parse(savedHistory));` — not
wrapped in `try/catch`, so a throwing read or corrupt JSON propagates
(`Except.error`); an absent key keeps the previous in-memory history. -/
def loadHistorySnapshot (prev : List HistoryEntry) :
    ReadResult (List HistoryEntry) → Except Unit (List HistoryEntry)
  | .throwErr => .error ()
  | .corrupt => .error ()
  | .absent => .ok prev
  | .ok h => .ok h

/-- The settings save effect (lines 1140–1146): `setItem` wrapped in
`try/catch`, so the write outcome never disturbs the in-memory state and
no exception escapes. -/
def saveLocalSnapshot (_writeOk : Bool) (mem : List Calc × Nat) :
    Except Unit (List Calc × Nat) := .ok mem

/-- The history save effect (lines 1163–1167): `setItem` wrapped in
`try/catch`. -/
def saveHistorySnapshot (_writeOk : Bool) (hist : List HistoryEntry) :
    Except Unit (List HistoryEntry) := .ok hist

/-! ## Specification-side definitions (for comparison with the code)

These two definitions follow the specification's words, not the code:
the spec assigns to a fresh tab the smallest positive integer `n` such
that the integers extracted from the same-variant names *matching* the
pattern contain every positive integer below `n` and not `n` itself. -/

/-- Walk from `n` upward to the first value not in `nums`; the fuel is
`nums.length + 1`, enough to escape any finite list. -/
def specSmallestFreeFrom : Nat → Nat → List Nat → Nat
  | 0, n, _ => n
  | fuel + 1, n, nums => if n ∈ nums then specSmallestFreeFrom fuel (n + 1) nums else n

/-- Smallest positive integer not in `nums` whose positive predecessors
are all in `nums` (the spec's gap-fill number). -/
def specSmallestFree (nums : List Nat) : Nat :=
  specSmallestFreeFrom (nums.length + 1) 1 nums

/-- The numbers of the same-variant names that match the pattern —
the spec's extraction (names that do not match contribute nothing,
unlike the code's `0`). -/
def specMatchedNums (t : CalcType) (calcs : List Calc) : List Nat :=
  (calcs.filter (fun c => c.type == t)).filterMap (fun c => tabMatch t c.name)

/-! ## Invariant predicates and iterated insertion -/

/-- The tab-store invariant: the collection is non-empty and the active
id is the id of one of its members. -/
def TabInvariant (s : List Calc × Nat) : Prop :=
  s.1 ≠ [] ∧ s.2 ∈ s.1.map (fun c => c.id)

/-- Well-formedness of a persisted snapshot: a persisted (truthy) active
id references a persisted calculator — true of every snapshot the app
itself writes, since it always saves `{calculators, activeTabId}` from a
state satisfying `TabInvariant`. -/
def SnapshotWF (ps : PSettings) : Prop :=
  ∀ a, ps.activeTabId = some a → a ≠ 0 → a ∈ ps.calculators.map (fun c => c.id)

/-- A sequence of `handleLogPeriod` insertions (each element: period
profit, rate, entry id, timestamp). -/
def logPeriodMany (xs : List (ℚ × ℚ × Nat × String)) (log : List FundingLogEntry) :
    List FundingLogEntry :=
  xs.foldl (fun l x => handleLogPeriod x.1 x.2.1 x.2.2.1 x.2.2.2 l) log

/-- A sequence of `addToHistory` insertions (each element: type, inputs,
result, tab name, entry id, timestamp). -/
def addToHistoryMany (ys : List (String × String × String × String × Nat × String))
    (hist : List HistoryEntry) : List HistoryEntry :=
  ys.foldl (fun l y => addToHistory y.1 y.2.1 y.2.2.1 y.2.2.2.1 y.2.2.2.2.1 y.2.2.2.2.2 l) hist

/-! ## Helper lemmas -/

/-- The purchase total, when no non-empty entry fails to parse, is the
plain sum of the parsed values (empty entries contributing zero). -/
lemma totalPurchasesQ_foldl (ps : List Purchase) (a : ℚ)
    (h : ∀ p ∈ ps, p.value = "" ∨ (parseFloatQ p.value).isSome) :
    ps.foldl
      (fun acc p =>
        match acc, parseFloatQ (if p.value = "" then "0" else p.value) with
        | some a, some v => some (a + v)
        | _, _ => none)
      (some a)
      = some (a + (ps.map fun p => (parseFloatQ (if p.value = "" then "0" else p.value)).getD 0).sum) := by
  induction ps generalizing a with
  | nil => simp
  | cons p ps ih =>
    have hp := h p (List.mem_cons_self p ps)
    have hps : ∀ q ∈ ps, q.value = "" ∨ (parseFloatQ q.value).isSome :=
      fun q hq => h q (List.mem_cons_of_mem p hq)
    have hv : ∃ v, parseFloatQ (if p.value = "" then "0" else p.value) = some v := by
      rcases hp with hp | hp
      · rw [if_pos hp]
        exact ⟨0, by decide⟩
      · rw [if_neg ?_]
        · exact Option.isSome_iff_exists.mp hp
        · intro he
          rw [he] at hp
          exact absurd hp (by decide)
    rcases hv with ⟨v, hv⟩
    simp only [List.foldl_cons, List.map_cons, List.sum_cons, hv, ih (a + v) hps,
      Option.getD_some]
    ring_nf

/-- `nextCountWalk` never goes below its starting counter. -/
lemma nextCountWalk_ge (l : List Nat) : ∀ n, n ≤ nextCountWalk l n := by
  induction l with
  | nil => intro n; simp [nextCountWalk]
  | cons x xs ih =>
    intro n
    by_cases hx : x = n
    · calc n ≤ n + 1 := Nat.le_succ n
        _ ≤ nextCountWalk xs (n + 1) := ih (n + 1)
        _ = nextCountWalk (x :: xs) n := by simp [nextCountWalk, hx]
    · simp [nextCountWalk, hx]

/-- On a strictly increasing list all of whose members are at least `n`,
the scan loop computes the least value `≥ n` that is absent while every
value in `[n, result)` is present. -/
lemma nextCountWalk_spec (l : List Nat) :
    ∀ n, l.Sorted (· ≤ ·) → l.Nodup → (∀ x ∈ l, n ≤ x) →
      nextCountWalk l n ∉ l ∧ ∀ k, n ≤ k → k < nextCountWalk l n → k ∈ l := by
  induction l with
  | nil =>
    intro n _ _ _
    constructor
    · simp
    · intro k hk hk2
      simp [nextCountWalk] at hk2
      omega
  | cons x xs ih =>
    intro n hsorted hnodup hge
    have hxxs : ∀ y ∈ xs, x ≤ y := (List.sorted_cons.mp hsorted).1
    have hxnot : x ∉ xs := (List.nodup_cons.mp hnodup).1
    have hxs_sorted : xs.Sorted (· ≤ ·) := (List.sorted_cons.mp hsorted).2
    have hxs_nodup : xs.Nodup := (List.nodup_cons.mp hnodup).2
    by_cases hx : x = n
    · have hgt : ∀ y ∈ xs, n + 1 ≤ y := by
        intro y hy
        have h1 : x ≤ y := hxxs y hy
        have h2 : y ≠ x := fun he => hxnot (he ▸ hy)
        omega
      have walk_eq : nextCountWalk (x :: xs) n = nextCountWalk xs (n + 1) := by
        simp [nextCountWalk, hx]
      obtain ⟨hnot, hall⟩ := ih (n + 1) hxs_sorted hxs_nodup hgt
      rw [walk_eq]
      constructor
      · intro hmem
        rcases List.mem_cons.mp hmem with he | hmem2
        · have := nextCountWalk_ge xs (n + 1)
          omega
        · exact hnot hmem2
      · intro k hk hk2
        by_cases hkn : k = n
        · exact hkn ▸ hx ▸ List.mem_cons_self x xs
        · exact List.mem_cons_of_mem x (hall k (by omega) hk2)
    · have walk_eq : nextCountWalk (x :: xs) n = n := by
        simp [nextCountWalk, hx]
      rw [walk_eq]
      constructor
      · intro hmem
        rcases List.mem_cons.mp hmem with he | hmem2
        · exact hx he.symm
        · have h1 : x ≤ n := le_trans (hxxs n hmem2) (le_refl n)
          have h2 : n ≤ x := hge x (List.mem_cons_self x xs)
          exact hx (le_antisymm h1 h2)
      · intro k hk hk2
        omega

/-- When `f` succeeds on every element, mapping with a default is the
same as `filterMap`. -/
lemma map_getD_eq_filterMap {α : Type} (l : List α) (f : α → Option Nat)
    (h : ∀ a ∈ l, (f a).isSome) :
    l.map (fun a => (f a).getD 0) = l.filterMap f := by
  induction l with
  | nil => simp
  | cons a l ih =>
    obtain ⟨k, hk⟩ := Option.isSome_iff_exists.mp (h a (List.mem_cons_self a l))
    simp only [List.map_cons, List.filterMap_cons, hk, Option.getD_some]
    exact congrArg (k :: ·) (ih fun b hb => h b (List.mem_cons_of_mem a hb))

/-! ## C2: tab numbering -/

/-- C2 counterexample. An arbitrage tab whose name does not match
`"C {n}"` contributes `0` to the scanned number list and stops the scan
at once: with tabs named `"foo"` and `"C 1"`, the code assigns number
`1` (a duplicate `"C 1"`), while the claimed rule over the *matching*
names (`{1}`) yields `2`. -/
theorem tab_numbering_counterexample :
    nextTabNumber .arbitrage
        [{ id := 10, type := .arbitrage, name := "foo" },
         { id := 11, type := .arbitrage, name := "C 1" }] = 1
    ∧ specSmallestFree (specMatchedNums .arbitrage
        [{ id := 10, type := .arbitrage, name := "foo" },
         { id := 11, type := .arbitrage, name := "C 1" }]) = 2
    ∧ ((handleAddArbitrageTab
        [{ id := 10, type := .arbitrage, name := "foo" },
         { id := 11, type := .arbitrage, name := "C 1" }] 12 0).1.map (fun c => c.name))
        = ["foo", "C 1", "C 1"]
    ∧ (1 : Nat) ≠ 2 := by
  refine ⟨by decide, by decide, by decide, by decide⟩

/-- C2 (amended). When every same-variant name matches its pattern
(`"C {n}"` / `"FR {n}"`) with pairwise-distinct positive integers, the
fresh tab's number is the smallest positive integer absent from the
matched set while every smaller positive integer is present (gap-fill);
a non-matching name contributes `0` to the scanned list and duplicates
stop the scan early, so outside this precondition the assigned number
can collide with an existing one. -/
theorem tab_numbering_gapfill (t : CalcType) (calcs : List Calc)
    (h1 : ∀ c ∈ calcs, c.type = t → (tabMatch t c.name).isSome)
    (h2 : ∀ c ∈ calcs, c.type = t → 1 ≤ (tabMatch t c.name).getD 0)
    (h3 : (extractNums t calcs).Nodup) :
    (1 ≤ nextTabNumber t calcs
      ∧ nextTabNumber t calcs ∉ specMatchedNums t calcs
      ∧ ∀ k, 1 ≤ k → k < nextTabNumber t calcs → k ∈ specMatchedNums t calcs)
    ∧ (∀ newId now, handleAddArbitrageTab calcs newId now
        = (calcs ++ [getNewCalculator newId (nextTabNumber .arbitrage calcs) now], newId))
    ∧ (∀ newId, handleAddFundingTab calcs newId
        = (calcs ++ [getNewFundingCalculator newId (nextTabNumber .funding calcs)], newId)) := by
  have hmatch : ∀ c ∈ calcs.filter (fun c => c.type == t), (tabMatch t c.name).isSome := by
    intro c hc
    have hmem := List.mem_filter.mp hc
    exact h1 c hmem.1 (by simpa using hmem.2)
  have hext : extractNums t calcs = specMatchedNums t calcs :=
    map_getD_eq_filterMap _ _ hmatch
  have hge1 : ∀ x ∈ extractNums t calcs, 1 ≤ x := by
    intro x hx
    simp only [extractNums, List.mem_map] at hx
    obtain ⟨c, hc, hcx⟩ := hx
    have hmem := List.mem_filter.mp hc
    rw [← hcx]
    exact h2 c hmem.1 (by simpa using hmem.2)
  have hperm : List.Perm (List.insertionSort (· ≤ ·) (extractNums t calcs)) (extractNums t calcs) :=
    List.perm_insertionSort _ _
  have hsorted : List.Sorted (· ≤ ·) (List.insertionSort (· ≤ ·) (extractNums t calcs)) :=
    List.sorted_insertionSort _ _
  have hnodup : (List.insertionSort (· ≤ ·) (extractNums t calcs)).Nodup :=
    hperm.nodup_iff.mpr h3
  have hge : ∀ x ∈ List.insertionSort (· ≤ ·) (extractNums t calcs), 1 ≤ x :=
    fun x hx => hge1 x (hperm.mem_iff.mp hx)
  obtain ⟨hnot, hall⟩ := nextCountWalk_spec _ 1 hsorted hnodup hge
  have hnt : nextTabNumber t calcs
      = nextCountWalk (List.insertionSort (· ≤ ·) (extractNums t calcs)) 1 := rfl
  refine ⟨⟨?_, ?_, ?_⟩, fun _ _ => rfl, fun _ => rfl⟩
  · rw [hnt]
    exact nextCountWalk_ge _ 1
  · rw [hnt, ← hext]
    intro hmem
    exact hnot (hperm.mem_iff.mpr hmem)
  · intro k hk1 hk2
    rw [← hext]
    exact hperm.mem_iff.mp (hall k hk1 (hnt ▸ hk2))

/-- The claim's gap-fill example: the collection left after removing
`"C 2"` from `{C 1, C 2, C 3}`. -/
def gapExample : List Calc :=
  [{ id := 1, type := .arbitrage, name := "C 1" },
   { id := 3, type := .arbitrage, name := "C 3" }]

/-- Witness for `tab_numbering_gapfill`: on `{C 1, C 3}` the assigned
number is `2` — the gap is filled, not extended past the maximum. -/
theorem tab_numbering_gapfill_witness :
    nextTabNumber .arbitrage gapExample = 2
    ∧ 2 ∉ specMatchedNums .arbitrage gapExample
    ∧ (∀ k, 1 ≤ k → k < 2 → k ∈ specMatchedNums .arbitrage gapExample)
    ∧ handleAddArbitrageTab gapExample 9 0
        = (gapExample ++ [getNewCalculator 9 (nextTabNumber .arbitrage gapExample) 0], 9) := by
  have h := tab_numbering_gapfill .arbitrage gapExample (by decide) (by decide) (by decide)
  have hv : nextTabNumber .arbitrage gapExample = 2 := by decide
  refine ⟨hv, hv ▸ h.1.2.1, fun k hk1 hk2 => h.1.2.2 k hk1 (by omega), h.2.1 9 0⟩

/-! ## C4: percentage difference -/

/-- C4. For every pair of input strings `(a, b)`: when both parse and
`b` parses to a nonzero value, `calculateDifference a b` is
`((a − b) / b) × 100` rendered to two decimal places; when either fails
to parse or `b` parses to zero, it is the literal `"0.00"`. -/
theorem calculateDifference_spec (a b : String) :
    (∀ x y, parseFloatQ a = some x → parseFloatQ b = some y → y ≠ 0 →
      calculateDifference a b = toFixedQ ((x - y) / y * 100) 2)
    ∧ ((parseFloatQ a = none ∨ parseFloatQ b = none ∨ parseFloatQ b = some 0) →
      calculateDifference a b = "0.00") := by
  constructor
  · intro x y hx hy hynz
    simp [calculateDifference, hx, hy, hynz]
  · intro h
    rcases h with h | h | h
    · cases hb : parseFloatQ b <;> simp [calculateDifference, h, hb]
    · cases ha : parseFloatQ a <;> simp [calculateDifference, ha, h]
    · cases ha : parseFloatQ a <;> simp [calculateDifference, ha, h]

/-- Witness for `calculateDifference_spec` at the inputs
`("50000", "49500")` (spread `1.01%`) and `("abc", "5")`. -/
theorem calculateDifference_spec_witness :
    calculateDifference "50000" "49500" = toFixedQ ((50000 - 49500 : ℚ) / 49500 * 100) 2
    ∧ toFixedQ ((50000 - 49500 : ℚ) / 49500 * 100) 2 = "1.01"
    ∧ calculateDifference "abc" "5" = "0.00" :=
  ⟨(calculateDifference_spec "50000" "49500").1 50000 49500 (by decide) (by decide) (by decide),
    by decide,
    (calculateDifference_spec "abc" "5").2 (Or.inl (by decide))⟩

/-! ## C3: funding calculations -/

/-- C3 counterexample. At a parsed position size of `0` (e.g. an
empty position input) the code short-circuits and returns a zero
`netProfitRate`, although the claimed formula `shortRate − longRate`
(here `1%/100 − 0 = 1/100`) is nonzero. -/
theorem funding_zero_position_counterexample :
    (fundingParsed "" "10" "8" "1" "0").netProfitRate = 0
    ∧ ((parseFloatQ "1").map (· / 100)).getD 0 = (1 / 100 : ℚ)
    ∧ ((parseFloatQ "0").map (· / 100)).getD 0 = 0
    ∧ ((1 / 100 : ℚ) - 0 ≠ 0) := by
  refine ⟨by decide, by decide, by decide, by decide⟩

/-- C3 (amended). On the parsed numeric inputs, when the parsed
position size is nonzero the funding calculation returns exactly the
claimed formulas (net rate `rA − rB`, period profit, daily profit with
the `intervalHours > 0` guard, the fixed 30/365 multipliers, the margin
and APY guards); when the parsed position size is `0` every output,
including the net rate, is `0`. -/
theorem fundingCalculations_spec (posSize rA rB lev interval : ℚ) :
    (posSize = 0 → fundingCalculations posSize rA rB lev interval = ⟨0, 0, 0, 0, 0, 0, 0⟩)
    ∧ (posSize ≠ 0 →
        (fundingCalculations posSize rA rB lev interval).netProfitRate = rA - rB
        ∧ (fundingCalculations posSize rA rB lev interval).netProfitUSD = posSize * (rA - rB)
        ∧ (0 < interval →
            (fundingCalculations posSize rA rB lev interval).dailyProfitUSD
              = posSize * (rA - rB) * (24 / interval))
        ∧ (¬ 0 < interval →
            (fundingCalculations posSize rA rB lev interval).dailyProfitUSD = 0)
        ∧ (fundingCalculations posSize rA rB lev interval).monthlyProfitUSD
            = (fundingCalculations posSize rA rB lev interval).dailyProfitUSD * 30
        ∧ (fundingCalculations posSize rA rB lev interval).annualProfitUSD
            = (fundingCalculations posSize rA rB lev interval).dailyProfitUSD * 365
        ∧ (0 < posSize ∧ 0 < lev →
            (fundingCalculations posSize rA rB lev interval).margin = posSize / lev)
        ∧ (¬ (0 < posSize ∧ 0 < lev) →
            (fundingCalculations posSize rA rB lev interval).margin = 0)
        ∧ (0 < (fundingCalculations posSize rA rB lev interval).margin →
            (fundingCalculations posSize rA rB lev interval).apy
              = (fundingCalculations posSize rA rB lev interval).annualProfitUSD
                  / (fundingCalculations posSize rA rB lev interval).margin * 100)
        ∧ (¬ 0 < (fundingCalculations posSize rA rB lev interval).margin →
            (fundingCalculations posSize rA rB lev interval).apy = 0)) := by
  have heq : posSize ≠ 0 → fundingCalculations posSize rA rB lev interval =
      { netProfitRate := rA - rB
        netProfitUSD := posSize * (rA - rB)
        dailyProfitUSD := posSize * (rA - rB) * (if 0 < interval then 24 / interval else 0)
        monthlyProfitUSD := posSize * (rA - rB) * (if 0 < interval then 24 / interval else 0) * 30
        annualProfitUSD := posSize * (rA - rB) * (if 0 < interval then 24 / interval else 0) * 365
        margin := if 0 < lev ∧ 0 < posSize then posSize / lev else 0
        apy := if 0 < (if 0 < lev ∧ 0 < posSize then posSize / lev else 0) then
                 posSize * (rA - rB) * (if 0 < interval then 24 / interval else 0) * 365
                   / (if 0 < lev ∧ 0 < posSize then posSize / lev else 0) * 100
               else 0 } := by
    intro h
    simp [fundingCalculations, h]
  constructor
  · intro h
    simp [fundingCalculations, h]
  · intro h
    rw [heq h]
    refine ⟨rfl, rfl, ?_, ?_, rfl, rfl, ?_, ?_, ?_, ?_⟩
    · intro hi
      simp [if_pos hi]
    · intro hi
      simp [if_neg hi]
    · intro hm
      simp [if_pos (And.intro hm.2 hm.1)]
    · intro hm
      have hm2 : ¬ (0 < lev ∧ 0 < posSize) := fun hc => hm ⟨hc.2, hc.1⟩
      simp [if_neg hm2]
    · intro hm
      by_cases hc : 0 < lev ∧ 0 < posSize
      · simp only [if_pos hc] at hm ⊢
        simp [if_pos hm]
      · simp only [if_neg hc] at hm
        exact absurd hm (by norm_num)
    · intro hm
      by_cases hc : 0 < lev ∧ 0 < posSize
      · simp only [if_pos hc] at hm ⊢
        simp [if_neg hm]
      · simp only [if_neg hc] at hm ⊢
        simp

/-- Witness for `fundingCalculations_spec` at the claim's example:
position 1000, short rate −0.18%, long rate −1.17%, interval 8h,
leverage 10. -/
theorem fundingCalculations_spec_witness :
    (1000 : ℚ) ≠ 0
    ∧ (fundingCalculations 1000 (-0.0018) (-0.0117) 10 8).netProfitRate = (-0.0018 : ℚ) - (-0.0117)
    ∧ ((-0.0018 : ℚ) - (-0.0117)) = 0.0099
    ∧ (fundingCalculations 1000 (-0.0018) (-0.0117) 10 8).netProfitUSD = 9.9
    ∧ (fundingCalculations 1000 (-0.0018) (-0.0117) 10 8).dailyProfitUSD = 3 * 9.9
    ∧ (fundingCalculations 1000 (-0.0018) (-0.0117) 10 8).margin = 100
    ∧ (fundingCalculations 1000 (-0.0018) (-0.0117) 10 8).apy
        = (fundingCalculations 1000 (-0.0018) (-0.0117) 10 8).annualProfitUSD / 100 * 100
    ∧ fundingParsed "1000" "10" "8" "-0.18" "-1.17"
        = fundingCalculations 1000 (-0.0018) (-0.0117) 10 8 :=
  ⟨by norm_num,
    ((fundingCalculations_spec 1000 (-0.0018) (-0.0117) 10 8).2 (by norm_num)).1,
    by decide, by decide, by decide, by decide, by decide, by decide⟩

/-! ## C5: weighted average price -/

/-- C5 counterexample. The code only requires the parsed coin count
to be nonzero (`coins !== 0`), not positive: with coins `-2` and a
single purchase of `1000` it renders `"-500.0000"`, while the claim
forces the zero value `"0.0000"` for a non-positive coin count. -/
theorem averagePrice_counterexample :
    averagePrice "-2" [{ id := 1, value := "1000" }] = "-500.0000"
    ∧ parseFloatQ "-2" = some (-2)
    ∧ ¬ (0 < (-2 : ℚ))
    ∧ ("-500.0000" : String) ≠ "0.0000" := by
  refine ⟨by decide, by decide, by decide, by decide⟩

/-- C5 (amended). The average price is the purchase total divided by
the parsed coin count to four decimal places whenever the coin count
parses to a *nonzero* value (positive or negative), no non-empty
purchase entry fails to parse, and the total is positive; in every
other case (unparseable or zero coin count, poisoned total, non-positive
total) it is `"0.0000"`.  The total is the sum of the parsed purchase
values with empty entries counted as zero, and is undefined (`NaN`)
as soon as one non-empty entry fails to parse. -/
theorem averagePrice_spec (totalCoins : String) (ps : List Purchase) :
    (∀ c t, parseFloatQ totalCoins = some c → totalPurchasesQ ps = some t → c ≠ 0 → 0 < t →
        averagePrice totalCoins ps = toFixedQ (t / c) 4)
    ∧ (parseFloatQ totalCoins = none → averagePrice totalCoins ps = "0.0000")
    ∧ (parseFloatQ totalCoins = some 0 → averagePrice totalCoins ps = "0.0000")
    ∧ (totalPurchasesQ ps = none → averagePrice totalCoins ps = "0.0000")
    ∧ (∀ t, totalPurchasesQ ps = some t → ¬ 0 < t → averagePrice totalCoins ps = "0.0000")
    ∧ ((∀ p ∈ ps, p.value = "" ∨ (parseFloatQ p.value).isSome) →
        totalPurchasesQ ps
          = some ((ps.map fun p =>
              (parseFloatQ (if p.value = "" then "0" else p.value)).getD 0).sum)) := by
  refine ⟨?_, ?_, ?_, ?_, ?_, ?_⟩
  · intro c t hc ht hcz htp
    simp [averagePrice, hc, ht, hcz, htp]
  · intro hc
    cases ht : totalPurchasesQ ps <;> simp [averagePrice, hc, ht]
  · intro hc
    cases ht : totalPurchasesQ ps <;> simp [averagePrice, hc, ht]
  · intro ht
    cases hc : parseFloatQ totalCoins <;> simp [averagePrice, hc, ht]
  · intro t ht htp
    cases hc : parseFloatQ totalCoins <;> simp [averagePrice, hc, ht, htp]
  · intro h
    have := totalPurchasesQ_foldl ps 0 h
    simpa [totalPurchasesQ] using this

/-- Witness for `averagePrice_spec` at the claim's examples: coins 2
with purchases `[1000, 1000]`, and coins 0. -/
theorem averagePrice_spec_witness :
    averagePrice "2" [{ id := 1, value := "1000" }, { id := 2, value := "1000" }]
      = toFixedQ ((2000 : ℚ) / 2) 4
    ∧ toFixedQ ((2000 : ℚ) / 2) 4 = "1000.0000"
    ∧ averagePrice "0" [{ id := 1, value := "1000" }] = "0.0000" :=
  ⟨(averagePrice_spec "2" _).1 2 2000 (by decide) (by decide) (by decide) (by decide),
    by decide,
    (averagePrice_spec "0" _).2.2.1 (by decide)⟩

/-! ## C8: funding-log and history caps -/

/-- C8. A single insertion and any sequence of insertions keep the
funding log at ≤ 100 entries and the history at ≤ 50 entries; an
insertion that fires truncates from the old end: the first `cap`
positions of the result agree with the newest-first extended list. -/
theorem log_history_caps :
    (∀ p r i ts (log : List FundingLogEntry), log.length ≤ 100 →
        (handleLogPeriod p r i ts log).length ≤ 100)
    ∧ (∀ xs (log : List FundingLogEntry), log.length ≤ 100 →
        (logPeriodMany xs log).length ≤ 100)
    ∧ (∀ p r i ts (log : List FundingLogEntry) k, p ≠ 0 → k < 100 →
        (handleLogPeriod p r i ts log)[k]?
          = (({ id := i, timestamp := ts, profit := p, rate := r } : FundingLogEntry) :: log)[k]?)
    ∧ (∀ ty inp res tab i ts (hist : List HistoryEntry), hist.length ≤ 50 →
        (addToHistory ty inp res tab i ts hist).length ≤ 50)
    ∧ (∀ ys (hist : List HistoryEntry), hist.length ≤ 50 →
        (addToHistoryMany ys hist).length ≤ 50)
    ∧ (∀ ty inp res tab i ts (hist : List HistoryEntry) k,
        ¬ (res = "" ∨ res = "0.00" ∨ res = "0.0000") → k < 50 →
        (addToHistory ty inp res tab i ts hist)[k]?
          = (({ id := i, timestamp := ts, type := ty, inputs := inp,
                result := res, tabName := tab } : HistoryEntry) :: hist)[k]?) := by
  have hlog : ∀ p r i ts (log : List FundingLogEntry), log.length ≤ 100 →
      (handleLogPeriod p r i ts log).length ≤ 100 := by
    intro p r i ts log hlen
    unfold handleLogPeriod
    split_ifs
    · exact hlen
    · exact le_trans (List.length_take_le 100 _) (le_refl 100)
  have hhist : ∀ ty inp res tab i ts (hist : List HistoryEntry), hist.length ≤ 50 →
      (addToHistory ty inp res tab i ts hist).length ≤ 50 := by
    intro ty inp res tab i ts hist hlen
    unfold addToHistory
    split_ifs
    · exact hlen
    · exact le_trans (List.length_take_le 50 _) (le_refl 50)
  refine ⟨hlog, ?_, ?_, hhist, ?_, ?_⟩
  · intro xs
    induction xs with
    | nil => intro log hl; exact hl
    | cons x xs ih =>
      intro log hl
      have hstep := hlog x.1 x.2.1 x.2.2.1 x.2.2.2 log hl
      exact ih _ hstep
  · intro p r i ts log k hp hk
    unfold handleLogPeriod
    rw [if_neg hp]
    exact List.getElem?_take_of_lt hk
  · intro ys
    induction ys with
    | nil => intro hist hl; exact hl
    | cons y ys ih =>
      intro hist hl
      have hstep := hhist y.1 y.2.1 y.2.2.1 y.2.2.2.1 y.2.2.2.2.1 y.2.2.2.2.2 hist hl
      exact ih _ hstep
  · intro ty inp res tab i ts hist k hres hk
    unfold addToHistory
    rw [if_neg hres]
    exact List.getElem?_take_of_lt hk

/-- Witness for `log_history_caps` on a concrete three-element insertion
burst into empty stores. -/
theorem log_history_caps_witness :
    (logPeriodMany [(1, 2, 3, "t1"), (4, 5, 6, "t2"), (0, 0, 7, "t3")] []).length ≤ 100
    ∧ (addToHistoryMany [("Abertura", "i", "1.01", "C 1", 1, "t")] []).length ≤ 50
    ∧ (handleLogPeriod 1 2 3 "t1" [])[0]?
        = some { id := 3, timestamp := "t1", profit := 1, rate := 2 } := by
  refine ⟨(log_history_caps.2.1) _ [] (by decide), (log_history_caps.2.2.2.2.1) _ [] (by decide), ?_⟩
  have h := (log_history_caps.2.2.1) 1 2 3 "t1" [] 0 (by decide) (by decide)
  rw [h]
  decide

/-! ## C6 / C10: tab removal -/

/-- In a collection with unique ids, the neighbours of `c` all carry an
id different from `c.id`. -/
lemma ids_ne_of_nodup (l1 l2 : List Calc) (c : Calc)
    (h : ((l1 ++ c :: l2).map (fun x => x.id)).Nodup) :
    (∀ x ∈ l1, x.id ≠ c.id) ∧ (∀ x ∈ l2, x.id ≠ c.id) := by
  rw [List.map_append, List.map_cons, List.nodup_append] at h
  obtain ⟨h1, h2, hdisj⟩ := h
  rw [List.nodup_cons] at h2
  constructor
  · intro x hx he
    exact hdisj (List.mem_map_of_mem _ hx) (by simp [he])
  · intro x hx he
    exact h2.1 (he ▸ List.mem_map_of_mem _ hx)

/-- `findIdx?` on a decomposed list: no hit in the prefix, a hit at `c`. -/
lemma findIdx?_append_cons (p : Calc → Bool) (pre : List Calc) (c : Calc) (post : List Calc)
    (hpre : ∀ x ∈ pre, p x = false) (hc : p c = true) :
    (pre ++ c :: post).findIdx? p = some pre.length := by
  induction pre with
  | nil => simp [List.findIdx?_cons, hc]
  | cons a l ih =>
    have ha := hpre a (by simp)
    simp [List.findIdx?_cons, ha, ih (fun x hx => hpre x (by simp [hx]))]

/-- Filtering away the id of `c` removes exactly `c` when the
neighbours carry different ids. -/
lemma filter_ne_append_cons (pre : List Calc) (c : Calc) (post : List Calc)
    (hpre : ∀ x ∈ pre, x.id ≠ c.id) (hpost : ∀ x ∈ post, x.id ≠ c.id) :
    (pre ++ c :: post).filter (fun x => !(x.id == c.id)) = pre ++ post := by
  have h1 : pre.filter (fun x => !(x.id == c.id)) = pre :=
    List.filter_eq_self.mpr (by intro x hx; simpa using hpre x hx)
  have h2 : post.filter (fun x => !(x.id == c.id)) = post :=
    List.filter_eq_self.mpr (by intro x hx; simpa using hpost x hx)
  simp [List.filter_append, List.filter_cons, h1, h2]

/-- Removing the only instance: fresh default arbitrage tab, activated. -/
lemma handleRemoveTab_only (c : Calc) (active freshId now : Nat) :
    handleRemoveTab [c] active c.id freshId now
      = ([getNewCalculator freshId 1 now], freshId) := by
  simp [handleRemoveTab, getNewCalculator]

/-- Removing the active first instance of a collection of two or more:
the first remaining instance becomes active. -/
lemma handleRemoveTab_head (c d : Calc) (post : List Calc) (freshId now : Nat)
    (hd : ∀ x ∈ d :: post, x.id ≠ c.id) :
    handleRemoveTab (c :: d :: post) c.id c.id freshId now = (d :: post, d.id) := by
  have hf : (c :: d :: post).findIdx? (fun x => x.id == c.id) = some 0 :=
    findIdx?_append_cons _ [] c (d :: post) (by simp) (by simp)
  have hfilter : (c :: d :: post).filter (fun x => !(x.id == c.id)) = d :: post := by
    have := filter_ne_append_cons [] c (d :: post) (by simp) hd
    simpa using this
  simp [handleRemoveTab, hf, hfilter, List.getD]

/-- Removing an active non-first instance: the instance immediately
preceding it becomes active. -/
lemma handleRemoveTab_mid (pre : List Calc) (q c : Calc) (post : List Calc) (freshId now : Nat)
    (hpre : ∀ x ∈ pre ++ [q], x.id ≠ c.id) (hpost : ∀ x ∈ post, x.id ≠ c.id) :
    handleRemoveTab (pre ++ q :: c :: post) c.id c.id freshId now
      = (pre ++ q :: post, q.id) := by
  have hre : pre ++ q :: c :: post = (pre ++ [q]) ++ c :: post := by simp
  have hf : (pre ++ q :: c :: post).findIdx? (fun x => x.id == c.id)
      = some (pre.length + 1) := by
    rw [hre]
    have := findIdx?_append_cons (fun x => x.id == c.id) (pre ++ [q]) c post
      (fun x hx => by simpa using hpre x hx) (by simp)
    simpa using this
  have hfilter : (pre ++ q :: c :: post).filter (fun x => !(x.id == c.id))
      = pre ++ q :: post := by
    rw [hre, filter_ne_append_cons _ _ _ hpre hpost]
    simp
  have hempty : (pre ++ q :: post).isEmpty = false := by
    simp
  have hget : (pre ++ q :: post).getD pre.length (getNewCalculator 0 0 now) = q := by
    rw [List.getD_eq_getElem?_getD, List.getElem?_append_right (le_refl pre.length)]
    simp
  simp only [handleRemoveTab, hf, hfilter, hempty, Bool.false_eq_true, if_false,
    eq_self_iff_true, if_true]
  have hidx : (max 0 (((pre.length + 1 : ℕ) : Int) - 1)).toNat = pre.length := by
    omega
  rw [hidx, hget]

/-- Removing a non-active instance: the active id and all other
instances are untouched. -/
lemma handleRemoveTab_inactive (pre : List Calc) (c : Calc) (post : List Calc)
    (active freshId now : Nat) (hactive : active ≠ c.id)
    (hpre : ∀ x ∈ pre, x.id ≠ c.id) (hpost : ∀ x ∈ post, x.id ≠ c.id)
    (hne : pre ++ post ≠ []) :
    handleRemoveTab (pre ++ c :: post) active c.id freshId now = (pre ++ post, active) := by
  have hfilter : (pre ++ c :: post).filter (fun x => !(x.id == c.id)) = pre ++ post :=
    filter_ne_append_cons _ _ _ hpre hpost
  have hempty : ¬ (pre ++ post).isEmpty := by
    simpa [List.isEmpty_iff] using hne
  simp [handleRemoveTab, hfilter, hempty, Ne.symm hactive]

/-- C6. `handleRemoveTab` on the only remaining instance replaces
the collection by one fresh default arbitrage instance and activates
it; removing the active first tab activates the first remaining tab;
removing an active non-first tab activates the instance immediately
preceding it, and the remaining instances keep their relative order. -/
theorem removeTab_spec (freshId now : Nat) :
    (∀ (c : Calc) (active : Nat),
        handleRemoveTab [c] active c.id freshId now
          = ([getNewCalculator freshId 1 now], freshId))
    ∧ (∀ (c d : Calc) (post : List Calc),
        ((c :: d :: post).map (fun x => x.id)).Nodup →
        handleRemoveTab (c :: d :: post) c.id c.id freshId now = (d :: post, d.id))
    ∧ (∀ (pre : List Calc) (q c : Calc) (post : List Calc),
        ((pre ++ q :: c :: post).map (fun x => x.id)).Nodup →
        handleRemoveTab (pre ++ q :: c :: post) c.id c.id freshId now
          = (pre ++ q :: post, q.id)) := by
  refine ⟨fun c active => handleRemoveTab_only c active freshId now, ?_, ?_⟩
  · intro c d post hnodup
    have hids := ids_ne_of_nodup [] (d :: post) c (by simpa using hnodup)
    exact handleRemoveTab_head c d post freshId now hids.2
  · intro pre q c post hnodup
    have hre : pre ++ q :: c :: post = (pre ++ [q]) ++ c :: post := by simp
    have hids := ids_ne_of_nodup (pre ++ [q]) post c
      (by rw [← hre]; exact hnodup)
    exact handleRemoveTab_mid pre q c post freshId now hids.1 hids.2

/-- Witness for `removeTab_spec`: removing the active middle tab of
`{C 1, C 2, C 3}` keeps `{C 1, C 3}` in order and activates `C 1`. -/
theorem removeTab_spec_witness :
    handleRemoveTab
        [{ id := 1, type := .arbitrage, name := "C 1" },
         { id := 2, type := .arbitrage, name := "C 2" },
         { id := 3, type := .arbitrage, name := "C 3" }] 2 2 9 0
      = ([{ id := 1, type := .arbitrage, name := "C 1" },
          { id := 3, type := .arbitrage, name := "C 3" }], 1)
    ∧ handleRemoveTab [{ id := 7, type := .funding, name := "FR 1" }] 7 7 9 0
      = ([getNewCalculator 9 1 0], 9) := by
  constructor
  · have h := (removeTab_spec 9 0).2.2 []
      { id := 1, type := .arbitrage, name := "C 1" }
      { id := 2, type := .arbitrage, name := "C 2" }
      [{ id := 3, type := .arbitrage, name := "C 3" }] (by decide)
    simpa using h
  · exact (removeTab_spec 9 0).1 { id := 7, type := .funding, name := "FR 1" } 7

/-- C10. Removing a non-active member of a collection of at least
two instances leaves the active id unchanged and the remaining
instances untouched field-for-field, in their original relative order
(the result is a sublist of the original collection). -/
theorem removeTab_frame (pre : List Calc) (c : Calc) (post : List Calc)
    (active freshId now : Nat)
    (hactive : active ≠ c.id)
    (hnodup : ((pre ++ c :: post).map (fun x => x.id)).Nodup)
    (hne : pre ++ post ≠ []) :
    handleRemoveTab (pre ++ c :: post) active c.id freshId now = (pre ++ post, active)
    ∧ (pre ++ post).Sublist (pre ++ c :: post) := by
  have hids := ids_ne_of_nodup pre post c hnodup
  exact ⟨handleRemoveTab_inactive pre c post active freshId now hactive hids.1 hids.2 hne,
    List.Sublist.append_left (List.sublist_cons_self c post) pre⟩

/-- Witness for `removeTab_frame`: removing the non-active tab `C 2`
while `C 3` is active keeps `C 3` active and `{C 1, C 3}` intact. -/
theorem removeTab_frame_witness :
    handleRemoveTab
        [{ id := 1, type := .arbitrage, name := "C 1" },
         { id := 2, type := .arbitrage, name := "C 2" },
         { id := 3, type := .arbitrage, name := "C 3" }] 3 2 9 0
      = ([{ id := 1, type := .arbitrage, name := "C 1" },
          { id := 3, type := .arbitrage, name := "C 3" }], 3) := by
  have h := removeTab_frame
    [{ id := 1, type := .arbitrage, name := "C 1" }]
    { id := 2, type := .arbitrage, name := "C 2" }
    [{ id := 3, type := .arbitrage, name := "C 3" }] 3 9 0
    (by decide) (by decide) (by decide)
  simpa using h.1

/-! ## C1: merge-on-load -/

/-- `mergeOne` keeps the cloud instance's id (the matching local
instance, when found, has the same id). -/
lemma mergeOne_id (localCalcs : List PCalc) (cc : PCalc) :
    (mergeOne localCalcs cc).id = cc.id := by
  unfold mergeOne
  cases hf : localCalcs.find? (fun lc => lc.id == cc.id) with
  | none => rfl
  | some lc =>
    have hp : lc.id = cc.id := by simpa using List.find?_some hf
    simp [PCalc.spread, hp]

/-- The merged list carries exactly the remote ids, in order. -/
lemma mergeCalculators_ids (cloudCalcs localCalcs : List PCalc) :
    (mergeCalculators cloudCalcs localCalcs).map (fun c => c.id)
      = cloudCalcs.map (fun c => c.id) := by
  unfold mergeCalculators
  rw [List.map_map]
  exact List.map_congr_left (fun c _ => mergeOne_id localCalcs c)

/-- Migration keeps the persisted ids, in order. -/
lemma migrated_ids (now : Nat) (l : List PCalc) :
    (l.map (migrateCalc now)).map (fun c => c.id) = l.map (fun c => c.id) := by
  rw [List.map_map]
  exact List.map_congr_left (fun c _ => rfl)

/-- C1. With both snapshots present the collection is computed from
the remote list: the merged list has exactly the remote ids in order
(local-only instances are dropped), a remote instance without a local
match is kept verbatim, a remote instance with a local match is
overlaid with the local fields winning on conflict, and migration
backfills every field missing from the persisted instance with its
variant template's default (forcing `type` to `'arbitrage'` and `log`
to `[]` when absent).  On the claim's concrete example,
remote `[{id:1,name:"A"}]` and local `[{id:1,name:"B"},{id:2,name:"C"}]`
merge to `[{id:1,name:"B"}]`. -/
theorem merge_on_load_spec (now : Nat) :
    (∀ cloudCalcs localCalcs : List PCalc,
        (mergeCalculators cloudCalcs localCalcs).map (fun c => c.id)
          = cloudCalcs.map (fun c => c.id))
    ∧ (∀ (localCalcs : List PCalc) (cc : PCalc),
        localCalcs.find? (fun lc => lc.id == cc.id) = none →
        mergeOne localCalcs cc = cc)
    ∧ (∀ (localCalcs : List PCalc) (cc lc : PCalc),
        localCalcs.find? (fun lc => lc.id == cc.id) = some lc →
          mergeOne localCalcs cc = cc.spread lc
          ∧ (mergeOne localCalcs cc).name = lc.name.orElse (fun _ => cc.name)
          ∧ (mergeOne localCalcs cc).positionSize
              = lc.positionSize.orElse (fun _ => cc.positionSize)
          ∧ (mergeOne localCalcs cc).log = lc.log.orElse (fun _ => cc.log)
          ∧ (mergeOne localCalcs cc).id = cc.id)
    ∧ (∀ c : PCalc,
        (migrateCalc now c).id = c.id
        ∧ (migrateCalc now c).type = c.type.getD .arbitrage
        ∧ (migrateCalc now c).name = c.name.getD ((defaultTemplate now c.type).name)
        ∧ (migrateCalc now c).openingExch1
            = c.openingExch1.getD ((defaultTemplate now c.type).openingExch1)
        ∧ (migrateCalc now c).openingExch2
            = c.openingExch2.getD ((defaultTemplate now c.type).openingExch2)
        ∧ (migrateCalc now c).closingExch1
            = c.closingExch1.getD ((defaultTemplate now c.type).closingExch1)
        ∧ (migrateCalc now c).closingExch2
            = c.closingExch2.getD ((defaultTemplate now c.type).closingExch2)
        ∧ (migrateCalc now c).totalCoins
            = c.totalCoins.getD ((defaultTemplate now c.type).totalCoins)
        ∧ (migrateCalc now c).purchases
            = c.purchases.getD ((defaultTemplate now c.type).purchases)
        ∧ (migrateCalc now c).showAverage
            = c.showAverage.getD ((defaultTemplate now c.type).showAverage)
        ∧ (migrateCalc now c).positionSize
            = c.positionSize.getD ((defaultTemplate now c.type).positionSize)
        ∧ (migrateCalc now c).leverage
            = c.leverage.getD ((defaultTemplate now c.type).leverage)
        ∧ (migrateCalc now c).fundingInterval
            = c.fundingInterval.getD ((defaultTemplate now c.type).fundingInterval)
        ∧ (migrateCalc now c).shortExchangeName
            = c.shortExchangeName.getD ((defaultTemplate now c.type).shortExchangeName)
        ∧ (migrateCalc now c).shortExchangeFR
            = c.shortExchangeFR.getD ((defaultTemplate now c.type).shortExchangeFR)
        ∧ (migrateCalc now c).longExchangeName
            = c.longExchangeName.getD ((defaultTemplate now c.type).longExchangeName)
        ∧ (migrateCalc now c).longExchangeFR
            = c.longExchangeFR.getD ((defaultTemplate now c.type).longExchangeFR)
        ∧ (migrateCalc now c).log = c.log.getD [])
    ∧ (∀ (d : List Calc × Nat) (cs ls : PSettings), cs.calculators ≠ [] →
        (loadSettings d (some cs) (some ls) now).1
          = (mergeCalculators cs.calculators ls.calculators).map (migrateCalc now))
    ∧ mergeCalculators [{ id := 1, name := some "A" }]
        [{ id := 1, name := some "B" }, { id := 2, name := some "C" }]
        = [{ id := 1, name := some "B" }] := by
  refine ⟨mergeCalculators_ids, ?_, ?_, ?_, ?_, by decide⟩
  · intro localCalcs cc hf
    simp [mergeOne, hf]
  · intro localCalcs cc lc hf
    have hid : lc.id = cc.id := by simpa using List.find?_some hf
    have heq : mergeOne localCalcs cc = cc.spread lc := by simp [mergeOne, hf]
    exact ⟨heq, by rw [heq]; rfl, by rw [heq]; rfl, by rw [heq]; rfl,
      by rw [heq]; simp [PCalc.spread, hid]⟩
  · intro c
    exact ⟨rfl, rfl, rfl, rfl, rfl, rfl, rfl, rfl, rfl, rfl, rfl, rfl, rfl, rfl, rfl, rfl,
      rfl, rfl⟩
  · intro d cs ls hne
    cases hm : (mergeCalculators cs.calculators ls.calculators).map (migrateCalc now) with
    | nil =>
      rw [List.map_eq_nil_iff] at hm
      have : cs.calculators = [] := by
        have := congrArg List.length (mergeCalculators_ids cs.calculators ls.calculators)
        simp [hm] at this
        exact List.eq_nil_of_length_eq_zero this.symm
      exact absurd this hne
    | cons m ms =>
      simp [loadSettings, hm]

/-- The claim's concrete remote instance `{id:1, name:"A"}`. -/
def pRemoteA : PCalc := { id := 1, name := some "A" }

/-- The claim's concrete local instance `{id:1, name:"B"}`. -/
def pLocalB : PCalc := { id := 1, name := some "B" }

/-- The claim's concrete local-only instance `{id:2, name:"C"}`. -/
def pLocalC : PCalc := { id := 2, name := some "C" }

/-- Witness for `merge_on_load_spec` on the claim's concrete snapshots. -/
theorem merge_on_load_spec_witness :
    mergeOne [pLocalB, pLocalC] pRemoteA = pRemoteA.spread pLocalB
    ∧ (mergeOne [pLocalB, pLocalC] pRemoteA).name = some "B"
    ∧ mergeOne [{ id := 5, name := some "L" }] pRemoteA = pRemoteA
    ∧ (migrateCalc 3 { id := 4, type := some .funding }).leverage = "10"
    ∧ (loadSettings ([getNewCalculator 7 1 7], 7)
        (some { calculators := [pRemoteA], activeTabId := some 1 })
        (some { calculators := [pLocalB, pLocalC], activeTabId := some 2 }) 9).1
      = (mergeCalculators [pRemoteA] [pLocalB, pLocalC]).map (migrateCalc 9) := by
  have h := merge_on_load_spec 3
  refine ⟨(h.2.2.1 [pLocalB, pLocalC] pRemoteA pLocalB (by decide)).1,
    ((h.2.2.1 [pLocalB, pLocalC] pRemoteA pLocalB (by decide)).2.1).trans (by decide),
    h.2.1 [{ id := 5, name := some "L" }] pRemoteA (by decide),
    ((h.2.2.2.1 { id := 4, type := some .funding }).2.2.2.2.2.2.2.2.2.2.2.1).trans (by decide),
    (merge_on_load_spec 9).2.2.2.2.1 ([getNewCalculator 7 1 7], 7)
      { calculators := [pRemoteA], activeTabId := some 1 }
      { calculators := [pLocalB, pLocalC], activeTabId := some 2 } (by decide)⟩

/-! ## C7: the tab-store invariant -/

/-- A map whose function keeps ids fixed keeps the id list fixed. -/
lemma map_ids_of_id_preserving (f : Calc → Calc) (h : ∀ c, (f c).id = c.id)
    (calcs : List Calc) :
    (calcs.map f).map (fun c => c.id) = calcs.map (fun c => c.id) := by
  rw [List.map_map]
  exact List.map_congr_left (fun c _ => h c)

/-- The migrated nonempty collection with the snapshot's active id (or
its head as fallback) satisfies the invariant. -/
lemma tabInvariant_migrated (act? : Option Nat) (bcalcs : List PCalc)
    (now : Nat) (m : Calc) (ms : List Calc)
    (hm : bcalcs.map (migrateCalc now) = m :: ms)
    (hwf : ∀ a, act? = some a → a ≠ 0 → a ∈ bcalcs.map (fun c => c.id)) :
    TabInvariant (m :: ms, loadActive act? m.id) := by
  constructor
  · simp
  · cases act? with
    | none => simp [loadActive]
    | some a =>
      by_cases ha : a = 0
      · simp [loadActive, ha]
      · have hIds : (m :: ms).map (fun c => c.id) = bcalcs.map (fun c => c.id) := by
          rw [← hm, migrated_ids]
        simp only [loadActive, if_neg ha]
        rw [hIds]
        exact hwf a rfl ha

/-- C7. The collection stays non-empty with a resolving active id
across the load-time merge and every tab operation: add (arbitrage and
funding), rename, update, clear, and remove (under the collection's
id-uniqueness invariant). -/
theorem tab_invariant_preserved (now freshId : Nat) :
    (∀ (calcs : List Calc) (newId : Nat),
        TabInvariant (handleAddArbitrageTab calcs newId now))
    ∧ (∀ (calcs : List Calc) (newId : Nat),
        TabInvariant (handleAddFundingTab calcs newId))
    ∧ (∀ (calcs : List Calc) (active id : Nat) (newName : String),
        TabInvariant (calcs, active) →
        TabInvariant (handleRenameTab calcs id newName, active))
    ∧ (∀ (calcs : List Calc) (active : Nat) (p : Patch),
        TabInvariant (calcs, active) →
        TabInvariant (handleUpdateInstance calcs active p, active))
    ∧ (∀ (calcs : List Calc) (active : Nat),
        TabInvariant (calcs, active) →
        TabInvariant (handleClearActiveTabFields calcs active now, active))
    ∧ (∀ (calcs : List Calc) (active idR : Nat),
        TabInvariant (calcs, active) → (calcs.map (fun c => c.id)).Nodup →
        TabInvariant (handleRemoveTab calcs active idR freshId now))
    ∧ (∀ (d : List Calc × Nat) (cloud localS : Option PSettings),
        TabInvariant d →
        (∀ ps, cloud = some ps → SnapshotWF ps) →
        (∀ ps, localS = some ps → SnapshotWF ps) →
        TabInvariant (loadSettings d cloud localS now)) := by
  have hmapinv : ∀ (f : Calc → Calc), (∀ c, (f c).id = c.id) →
      ∀ (calcs : List Calc) (active : Nat), TabInvariant (calcs, active) →
      TabInvariant (calcs.map f, active) := by
    intro f hf calcs active ⟨h1, h2⟩
    constructor
    · intro hmap
      exact h1 (List.map_eq_nil_iff.mp hmap)
    · rw [map_ids_of_id_preserving f hf]
      exact h2
  refine ⟨?_, ?_, ?_, ?_, ?_, ?_, ?_⟩
  · intro calcs newId
    exact ⟨by simp [handleAddArbitrageTab], by simp [handleAddArbitrageTab, getNewCalculator]⟩
  · intro calcs newId
    exact ⟨by simp [handleAddFundingTab], by simp [handleAddFundingTab, getNewFundingCalculator]⟩
  · intro calcs active id newName hinv
    exact hmapinv _ (fun c => by by_cases hc : c.id = id <;> simp [handleRenameTab, hc]) calcs
      active hinv
  · intro calcs active p hinv
    exact hmapinv _ (fun c => by by_cases hc : c.id = active <;> simp [applyPatch, hc]) calcs
      active hinv
  · intro calcs active hinv
    refine hmapinv _ (fun c => ?_) calcs active hinv
    by_cases hc : c.id = active
    · by_cases ht : c.type = CalcType.funding <;> simp [hc, ht]
    · simp [hc]
  · intro calcs active idR hinv hnodup
    obtain ⟨hne, hmem⟩ := hinv
    by_cases hidmem : idR ∈ calcs.map (fun c => c.id)
    · obtain ⟨a, ha, haid⟩ := List.mem_map.mp hidmem
      obtain ⟨pre, post, rfl⟩ := List.append_of_mem ha
      subst haid
      have hids := ids_ne_of_nodup pre post a hnodup
      by_cases hpp : pre ++ post = []
      · obtain ⟨hpre0, hpost0⟩ := List.append_eq_nil.mp hpp
        subst hpre0; subst hpost0
        rw [show ([] : List Calc) ++ a :: [] = [a] from rfl,
          handleRemoveTab_only a active freshId now]
        exact ⟨by simp, by simp [getNewCalculator]⟩
      · by_cases hact : a.id = active
        · rcases List.eq_nil_or_concat pre with hpre0 | ⟨ps, q, hpreq⟩
          · subst hpre0
            cases post with
            | nil => exact absurd rfl hpp
            | cons d post2 =>
              rw [show ([] : List Calc) ++ a :: d :: post2 = a :: d :: post2 from rfl, ← hact,
                handleRemoveTab_head a d post2 freshId now hids.2]
              exact ⟨by simp, by simp⟩
          · subst hpreq
            simp only [List.concat_eq_append] at hids ⊢
            rw [show (ps ++ [q]) ++ a :: post = ps ++ q :: a :: post by simp, ← hact,
              handleRemoveTab_mid ps q a post freshId now hids.1 hids.2]
            exact ⟨by simp, by simp⟩
        · have hactive : active ≠ a.id := fun he => hact he.symm
          rw [handleRemoveTab_inactive pre a post active freshId now hactive hids.1 hids.2 hpp]
          refine ⟨hpp, ?_⟩
          simp only [List.map_append, List.map_cons, List.mem_append, List.mem_cons] at hmem ⊢
          rcases hmem with h | h | h
          · exact Or.inl h
          · exact absurd h hactive
          · exact Or.inr h
    · have hfeq : calcs.filter (fun x => !(x.id == idR)) = calcs := by
        refine List.filter_eq_self.mpr (fun x hx => ?_)
        have : x.id ≠ idR := fun he => hidmem (he ▸ List.mem_map_of_mem _ hx)
        simpa using this
      have hact_ne : idR ≠ active := fun he => hidmem (he ▸ hmem)
      have hempty : ¬ calcs.isEmpty := by simpa [List.isEmpty_iff] using hne
      rw [show handleRemoveTab calcs active idR freshId now = (calcs, active) by
        simp [handleRemoveTab, hfeq, hempty, hact_ne]]
      exact ⟨hne, hmem⟩
  · intro d cloud localS hd hwfc hwfl
    cases cloud with
    | none =>
      cases localS with
      | none => simpa [loadSettings] using hd
      | some ls =>
        cases hm : ls.calculators.map (migrateCalc now) with
        | nil => simpa [loadSettings, hm] using hd
        | cons m ms =>
          have := tabInvariant_migrated ls.activeTabId ls.calculators now m ms hm
            (fun a ha h0 => hwfl ls rfl a ha h0)
          simpa [loadSettings, hm] using this
    | some cs =>
      cases localS with
      | none =>
        cases hm : cs.calculators.map (migrateCalc now) with
        | nil => simpa [loadSettings, hm] using hd
        | cons m ms =>
          have := tabInvariant_migrated cs.activeTabId cs.calculators now m ms hm
            (fun a ha h0 => hwfc cs rfl a ha h0)
          simpa [loadSettings, hm] using this
      | some ls =>
        cases hm : (mergeCalculators cs.calculators ls.calculators).map (migrateCalc now) with
        | nil => simpa [loadSettings, hm] using hd
        | cons m ms =>
          have := tabInvariant_migrated cs.activeTabId
            (mergeCalculators cs.calculators ls.calculators) now m ms hm
            (fun a ha h0 => by
              rw [mergeCalculators_ids]
              exact hwfc cs rfl a ha h0)
          simpa [loadSettings, hm] using this

/-- Witness for `tab_invariant_preserved` at concrete states: a rename,
a removal and a two-snapshot load. -/
theorem tab_invariant_preserved_witness :
    TabInvariant
      (handleRenameTab [{ id := 1, type := .arbitrage, name := "C 1" }] 1 "mine", 1)
    ∧ TabInvariant
      (handleRemoveTab [{ id := 1, type := .arbitrage, name := "C 1" },
                        { id := 2, type := .arbitrage, name := "C 2" }] 2 2 9 0)
    ∧ TabInvariant
      (loadSettings ([getNewCalculator 7 1 7], 7)
        (some { calculators := [{ id := 1, name := some "A" }], activeTabId := some 1 })
        (some { calculators := [{ id := 1, name := some "B" }], activeTabId := some 1 }) 9) := by
  refine ⟨(tab_invariant_preserved 0 9).2.2.1 _ 1 1 "mine" ⟨by decide, by decide⟩,
    (tab_invariant_preserved 0 9).2.2.2.2.2.1 _ 2 2 ⟨by decide, by decide⟩ (by decide),
    (tab_invariant_preserved 9 9).2.2.2.2.2.2 _ _ _ ⟨by decide, by decide⟩ ?_ ?_⟩
  · intro ps hps
    cases hps
    intro a ha h0
    simp at ha
    subst ha
    decide
  · intro ps hps
    cases hps
    intro a ha h0
    simp at ha
    subst ha
    decide

/-! ## C9: storage access error paths -/

/-- C9. The settings load, the settings save and the history save
swallow every storage failure (previous in-memory state stays
authoritative), but the history *load* is not guarded: a throwing read
or corrupt stored JSON propagates as an uncaught exception instead of
being skipped. -/
theorem storage_error_paths :
    loadLocalSnapshot .corrupt = none
    ∧ loadLocalSnapshot .throwErr = none
    ∧ loadLocalSnapshot .absent = none
    ∧ (∀ b mem, saveLocalSnapshot b mem = .ok mem)
    ∧ (∀ b hist, saveHistorySnapshot b hist = .ok hist)
    ∧ (∀ prev, loadHistorySnapshot prev .absent = .ok prev)
    ∧ (∀ prev, loadHistorySnapshot prev .corrupt = .error ())
    ∧ (∀ prev, loadHistorySnapshot prev .throwErr = .error ()) :=
  ⟨rfl, rfl, rfl, fun _ _ => rfl, fun _ _ => rfl, fun _ => rfl, fun _ => rfl, fun _ => rfl⟩

end PrismaCalc
